import Mathlib

/-!
Shallow embedding of the three client scripts of this repository
(`search_grant_links_google.py`, `api_demo.py`, `test_continuous_operation.py`)
together with proofs about the claims of the specification.

Strings are modelled as `List Char` (`Str`); Python string primitives
(`str.strip`, `str.lower`, `str.endswith`, substring containment) are embedded
as executable functions on `Str` matching Python's semantics on ASCII data.
-/

namespace SearxVerify

abbrev Str := List Char

/-- Whitespace characters removed by Python `str.strip()` (ASCII range). -/
def isPySpace (c : Char) : Bool :=
  c == ' ' || c == '\t' || c == '\n' || c == '\r' || c == '\x0b' || c == '\x0c'

/-- Python `str.strip()`: drop leading and trailing whitespace. -/
def pyStrip (s : Str) : Str :=
  ((s.dropWhile isPySpace).reverse.dropWhile isPySpace).reverse

/-- Lower-case one character, as Python `str.lower()` does on ASCII. -/
def pyLowerChar (c : Char) : Char :=
  if 'A' ≤ c ∧ c ≤ 'Z' then Char.ofNat (c.toNat + 32) else c

/-- Python `str.lower()` (ASCII). -/
def toLowerL (s : Str) : Str := s.map pyLowerChar

/-- `startsWithL pat s` is true when `pat` is a prefix of `s`. -/
def startsWithL : Str → Str → Bool
  | [], _ => true
  | _ :: _, [] => false
  | a :: pat, b :: s => a == b && startsWithL pat s

/-- Python `s.endswith(pat)`. -/
def endsWithL (pat s : Str) : Bool := startsWithL pat.reverse s.reverse

/-- Python `pat in s`: substring containment. -/
def containsSub (pat : Str) : Str → Bool
  | [] => startsWithL pat []
  | c :: rest => startsWithL pat (c :: rest) || containsSub pat rest

/-- `search_grant_links_google.py`, `clean_grant_name` (lines 26-31):
strip the name; if its lower-casing ends with `grant` or contains `' grant '`
return it unchanged, else append `" grant"`. -/
def clean_grant_name (g : Str) : Str :=
  if endsWithL "grant".data (toLowerL (pyStrip g))
      || containsSub " grant ".data (toLowerL (pyStrip g)) then
    pyStrip g
  else
    pyStrip g ++ " grant".data

/-- Split a string into whitespace-separated words (used only to state the
specification's "contains the required term as a standalone word"). -/
def splitWordsAux (cur : Str) : Str → List Str
  | [] => if cur.isEmpty then [] else [cur.reverse]
  | c :: rest =>
    if isPySpace c then
      if cur.isEmpty then splitWordsAux [] rest
      else cur.reverse :: splitWordsAux [] rest
    else splitWordsAux (c :: cur) rest

def splitWords (s : Str) : List Str := splitWordsAux [] s

/-- The query normalizer exactly as the specification words it: "If the
lowercased text already ends with the required term or contains it as a
standalone word, returns the trimmed text unchanged; otherwise appends a
single space and the required term."  (Stated for comparison with
`clean_grant_name`, which is translated from the source.) -/
def cleanGrantNameSpec (g : Str) : Str :=
  if endsWithL "grant".data (toLowerL (pyStrip g))
      || (splitWords (toLowerL (pyStrip g))).contains "grant".data then
    pyStrip g
  else
    pyStrip g ++ " grant".data

/-- The condition under which `clean_grant_name` leaves its (stripped) input
unchanged, stated declaratively: the lowercased text ends with `grant` or has
`" grant "` (space on both sides) as a substring. -/
def hasGrantMarker (t : Str) : Prop :=
  (∃ a, toLowerL t = a ++ "grant".data) ∨
  (∃ a b, toLowerL t = a ++ " grant ".data ++ b)

/-! ### `search_grant_links_google.py`: backend client and batch runner -/

/-- Body of a 200 reply from the Google Custom Search API, as the script reads
it: an optional `items` list (absent field defaults to `[]` via
`data.get('items', [])`), each item carrying an optional `link` field
(absent defaults to `''` via `item.get('link', '')`). -/
structure GoogleBody where
  items : Option (List (Option Str))
deriving DecidableEq

/-- What one call of `requests.get` against the Google endpoint can produce:
a 200 reply whose body parses (`ok (some body)`), a 200 reply whose
`response.json()` raises (`ok none`), a non-200 status, or an exception
raised by the request itself. -/
inductive GoogleResponse where
  | ok (body : Option GoogleBody)
  | httpError (status : Nat)
  | exn
deriving DecidableEq

/-- `search_grant_google` (lines 34-64): returns all non-empty result links on
a parsed 200 reply, and `[]` on no results, non-200 status, or any exception
(the `except` clause catches everything, prints, and returns `[]`). -/
def search_grant_google (r : GoogleResponse) : List Str :=
  match r with
  | .ok (some body) =>
    let items := body.items.getD []
    if items.isEmpty then []
    else (items.map (fun item => item.getD [])).filter (fun link => !link.isEmpty)
  | .ok none => []
  | .httpError _ => []
  | .exn => []

/-- One output CSV row: `(grant_name, search_query, link)`. -/
abbrev Row := Str × Str × Str

/-- State accumulated by `main`'s loop (lines 92-139): rows written to the
best-result file, rows written to the full-result file, and `query_count`. -/
structure GRunState where
  best : List Row
  full : List Row
  queryCount : Nat
deriving DecidableEq

/-- A record is skipped when its stripped `grant_name` is empty or equals the
header text `grant_name` case-insensitively (lines 109-113). -/
def skippedRecord (raw : Str) : Bool :=
  (pyStrip raw).isEmpty || toLowerL (pyStrip raw) == "grant_name".data

/-- One iteration of `main`'s loop (lines 108-139).  `backend` maps the search
query sent to the Google client to the backend's behaviour for that call. -/
def gStep (backend : Str → GoogleResponse) (st : GRunState) (raw : Str) : GRunState :=
  if skippedRecord raw then st
  else
    match search_grant_google (backend (clean_grant_name (pyStrip raw))) with
    | [] =>
      { st with queryCount := st.queryCount + 1,
                best := st.best ++ [(pyStrip raw, clean_grant_name (pyStrip raw), [])] }
    | l :: rest =>
      { st with queryCount := st.queryCount + 1,
                best := st.best ++ [(pyStrip raw, clean_grant_name (pyStrip raw), l)],
                full := st.full ++
                  ((l :: rest).map (fun lk => (pyStrip raw, clean_grant_name (pyStrip raw), lk))) }

/-- The whole input loop of `main` over the parsed input rows (each row's
`grant_name` field, `''` when absent). -/
def gRun (backend : Str → GoogleResponse) (rows : List Str) : GRunState :=
  rows.foldl (gStep backend) ⟨[], [], 0⟩

/-- The best-result rows a single record contributes: none when skipped,
otherwise exactly one row whose link is the first extracted link or `''`. -/
def gBestRow (backend : Str → GoogleResponse) (raw : Str) : List Row :=
  if skippedRecord raw then []
  else
    match search_grant_google (backend (clean_grant_name (pyStrip raw))) with
    | [] => [(pyStrip raw, clean_grant_name (pyStrip raw), [])]
    | l :: _ => [(pyStrip raw, clean_grant_name (pyStrip raw), l)]

/-- `main` (lines 67-149): when the input file is missing it prints an error
and returns before opening any output file, and the process then finishes
normally (exit status 0); otherwise it runs the loop and also exits 0.
Result: final run state paired with the process exit code. -/
def mainGrant (input : Option (List Str)) (backend : Str → GoogleResponse) :
    GRunState × Nat :=
  match input with
  | none => (⟨[], [], 0⟩, 0)
  | some rows => (gRun backend rows, 0)

/-! ### `api_demo.py`: `SearXNGClient.search` -/

/-- Python exceptions relevant to `SearXNGClient.search`.  With the `requests`
library (≥ 2.27) a body that fails to parse in `response.json()` raises
`requests.exceptions.JSONDecodeError`, which is a subclass of
`requests.RequestException`. -/
inductive PyExn where
  | requestExn (msg : Str)
  | jsonDecodeExn
deriving DecidableEq

def PyExn.isRequestException : PyExn → Bool
  | .requestExn _ => true
  | .jsonDecodeExn => true

def PyExn.message : PyExn → Str
  | .requestExn msg => msg
  | .jsonDecodeExn => "Expecting value".data

/-- One result record of the metasearch JSON: only the fields the scripts
read are modelled.  `engines` is the optional merged-engine list
(`result.get('engines', [])`). -/
structure SearxResult where
  engines : Option (List Str)
deriving DecidableEq

/-- A raw `unresponsive_engines` entry: either not a JSON list (the
`isinstance` test fails) or a list of strings `[engineName, reason, ...]`. -/
inductive UEntry where
  | other
  | listE (xs : List Str)
deriving DecidableEq

/-- Parsed metasearch JSON body, restricted to the fields the scripts read;
absent fields are `none` (the code defaults them with `.get`). -/
structure SearxData where
  results : Option (List SearxResult)
  unresponsive : Option (List UEntry)
deriving DecidableEq

/-- What one `session.get`/`requests.get` call can produce: a reply with an
HTTP status, a JSON parse of its body (`none` when `response.json()` would
raise), and its raw text; or a network failure raising `RequestException`. -/
inductive HttpAttempt where
  | conn (status : Nat) (json : Option SearxData) (text : Str)
  | netFail (msg : Str)
deriving DecidableEq

/-- What `SearXNGClient.search` returns: the parsed JSON, `{'html': text}`,
or `{'error': str(e)}`. -/
inductive ClientValue where
  | jsonData (d : SearxData)
  | htmlWrap (text : Str)
  | errorDict (msg : Str)
deriving DecidableEq

/-- `response.raise_for_status()`: raises `HTTPError` (a `RequestException`)
for 4xx/5xx statuses. -/
def raiseForStatus (status : Nat) : Except PyExn Unit :=
  if 400 ≤ status ∧ status ≤ 599 then .error (.requestExn "HTTPError".data)
  else .ok ()

namespace SearXNGClient

/-- The body of `SearXNGClient.search`'s `try` block (lines 44-51), as a
fallible computation. -/
def searchBody (a : HttpAttempt) (format : Str) : Except PyExn ClientValue :=
  match a with
  | .netFail msg => .error (.requestExn msg)
  | .conn status json text => do
    let _ ← raiseForStatus status
    if format == "json".data then
      match json with
      | some d => pure (.jsonData d)
      | none => .error .jsonDecodeExn
    else
      pure (.htmlWrap text)

/-- `SearXNGClient.search` (lines 20-54): the `except requests.RequestException`
clause converts any `RequestException` into `{'error': str(e)}`; anything
else would propagate. -/
def search (a : HttpAttempt) (format : Str) : Except PyExn ClientValue :=
  match searchBody a format with
  | .ok v => .ok v
  | .error e =>
    if e.isRequestException then .ok (.errorDict e.message) else .error e

end SearXNGClient

/-! ### `test_continuous_operation.py`: stats loop and summary -/

/-- What one loop iteration's `requests.get` produces: a reply (with its
elapsed time, HTTP status and body parse — `none` when `response.json()`
would raise), a `requests.exceptions.Timeout`, or any other exception. -/
inductive FetchOutcome where
  | resp (elapsed : ℚ) (status : Nat) (body : Option SearxData)
  | timeout
  | exn
deriving DecidableEq

/-- The `stats` dictionary (lines 32-40).  The two counters are
insertion-ordered association lists, mirroring Python `defaultdict(int)`
iteration order. -/
structure Stats where
  total : Nat
  success : Nat
  failed : Nat
  totalResults : Nat
  enginesUsed : List (Str × Nat)
  suspended : List (Str × Nat)
  responseTimes : List ℚ
deriving DecidableEq

def initStats : Stats := ⟨0, 0, 0, 0, [], [], []⟩

/-- `counter[key] += 1` on a `defaultdict(int)`: update in place when the key
exists, else append it (Python dicts iterate in insertion order). -/
def bump (m : List (Str × Nat)) (k : Str) : List (Str × Nat) :=
  match m with
  | [] => [(k, 1)]
  | (k', v) :: rest => if k' = k then (k', v + 1) :: rest else (k', v) :: bump rest k

/-- Processing of one `unresponsive_engines` entry (lines 91-96): only raw
JSON lists with at least one element count, under their first element. -/
def suspBump (m : List (Str × Nat)) (e : UEntry) : List (Str × Nat) :=
  match e with
  | .other => m
  | .listE [] => m
  | .listE (name :: _) => bump m name

/-- One iteration of the loop of `test_continuous_operation` (lines 56-115).
`total_searches` is incremented before the `try`; the latency sample is
appended as soon as `requests.get` returns, before the status test and body
parse; a 200 reply whose `response.json()` raises falls into the generic
`except Exception` clause after the sample was already recorded. -/
def stepSearch (st : Stats) (f : FetchOutcome) : Stats :=
  match f with
  | .timeout =>
    { st with total := st.total + 1, failed := st.failed + 1 }
  | .exn =>
    { st with total := st.total + 1, failed := st.failed + 1 }
  | .resp elapsed status body =>
    if status = 200 then
      match body with
      | some d =>
        { st with total := st.total + 1,
                  responseTimes := st.responseTimes ++ [elapsed],
                  success := st.success + 1,
                  totalResults := st.totalResults + (d.results.getD []).length,
                  enginesUsed :=
                    (d.results.getD []).foldl
                      (fun m r => (r.engines.getD []).foldl bump m) st.enginesUsed,
                  suspended := (d.unresponsive.getD []).foldl suspBump st.suspended }
      | none =>
        { st with total := st.total + 1,
                  responseTimes := st.responseTimes ++ [elapsed],
                  failed := st.failed + 1 }
    else
      { st with total := st.total + 1,
                responseTimes := st.responseTimes ++ [elapsed],
                failed := st.failed + 1 }

/-- The whole loop: one `FetchOutcome` per scheduled search
(`num_searches = l.length`). -/
def runStats (l : List FetchOutcome) : Stats := l.foldl stepSearch initStats

/-- An iteration counts as successful exactly when the reply has status 200
and a parseable body. -/
def isSuccess : FetchOutcome → Bool
  | .resp _ status body => if status = 200 then body.isSome else false
  | _ => false

/-- All engine names credited by one iteration, in the order the nested
`for result / for engine` loops visit them. -/
def itemEngines : FetchOutcome → List Str
  | .resp _ status body =>
    if status = 200 then
      match body with
      | some d => (d.results.getD []).flatMap (fun r => r.engines.getD [])
      | none => []
    else []
  | _ => []

/-- Python `a / b`: raises `ZeroDivisionError` when `b = 0`. -/
def pyDiv (a b : ℚ) : Except Unit ℚ :=
  if b = 0 then .error () else .ok (a / b)

/-- Stable insertion of one element into a list already sorted by hit count
descending: the new element goes after every element whose count is ≥ its
own, exactly where Python's stable `sorted(..., key=lambda x: -x[1])`
leaves it. -/
def insDesc (x : Str × Nat) : List (Str × Nat) → List (Str × Nat)
  | [] => [x]
  | y :: ys => if y.2 < x.2 then x :: y :: ys else y :: insDesc x ys

/-- Model of Python's stable `sorted(items, key=lambda x: -x[1])`. -/
def pySortDesc (l : List (Str × Nat)) : List (Str × Nat) :=
  l.foldl (fun acc x => insDesc x acc) []

/-- Position of a key in the iteration order of a counter mapping. -/
def keyIdx (m : List (Str × Nat)) (k : Str) : Nat :=
  m.findIdx (fun p => p.1 == k)

/-- Ordering the top-engines report must satisfy relative to a rank function
`f` (the position of the engine in the counter mapping): strictly larger hit
count first, and for equal counts the engine with the smaller rank first. -/
def rankRel (f : Str × Nat → Nat) (a b : Str × Nat) : Prop :=
  b.2 < a.2 ∨ (a.2 = b.2 ∧ f a < f b)

def listMin : List ℚ → ℚ
  | [] => 0
  | x :: xs => xs.foldl min x

def listMax : List ℚ → ℚ
  | [] => 0
  | x :: xs => xs.foldl max x

/-- Everything the final summary computes. -/
structure SummaryData where
  successPct : ℚ
  failedPct : ℚ
  avgResults : ℚ
  latency : Option (ℚ × ℚ × ℚ)
  topEngines : List (Str × Nat)
  verdict : Nat
deriving DecidableEq

/-- The summary block of `test_continuous_operation` (lines 117-161), with
every Python division made explicit: the two percentage divisions and the
final success-rate division divide by `total_searches` unguarded; the
average-results division is guarded by `max(successful_searches, 1)`; the
latency divisions run only when `response_times` is non-empty.  Verdict: 0
for "excellent" (rate ≥ 95), 1 for "good" (≥ 80), 2 for "warning". -/
def summaryOutcome (st : Stats) : Except Unit SummaryData :=
  match pyDiv (st.success : ℚ) (st.total : ℚ) with
  | .error e => .error e
  | .ok sp =>
    match pyDiv (st.failed : ℚ) (st.total : ℚ) with
    | .error e => .error e
    | .ok fp =>
      match pyDiv (st.totalResults : ℚ) ((max st.success 1 : ℕ) : ℚ) with
      | .error e => .error e
      | .ok ar =>
        match (if st.responseTimes.isEmpty then Except.ok none
               else
                 match pyDiv (st.responseTimes.foldl (· + ·) 0)
                     ((st.responseTimes.length : ℕ) : ℚ) with
                 | .error e => .error e
                 | .ok avg =>
                   .ok (some (avg, listMin st.responseTimes, listMax st.responseTimes))) with
        | .error e => .error e
        | .ok lat =>
          match pyDiv (st.success : ℚ) (st.total : ℚ) with
          | .error e => .error e
          | .ok rate =>
            .ok ⟨sp * 100, fp * 100, ar, lat, (pySortDesc st.enginesUsed).take 10,
                 if 95 ≤ rate * 100 then 0 else if 80 ≤ rate * 100 then 1 else 2⟩

/-- The value the summary computes when no division raises (derived form of
`summaryOutcome`, used to state its success case). -/
def summaryHappy (st : Stats) : SummaryData :=
  ⟨(st.success : ℚ) / (st.total : ℚ) * 100,
   (st.failed : ℚ) / (st.total : ℚ) * 100,
   (st.totalResults : ℚ) / ((max st.success 1 : ℕ) : ℚ),
   if st.responseTimes.isEmpty then none
   else some ((st.responseTimes.foldl (· + ·) 0) / ((st.responseTimes.length : ℕ) : ℚ),
              listMin st.responseTimes, listMax st.responseTimes),
   (pySortDesc st.enginesUsed).take 10,
   if 95 ≤ (st.success : ℚ) / (st.total : ℚ) * 100 then 0
   else if 80 ≤ (st.success : ℚ) / (st.total : ℚ) * 100 then 1 else 2⟩

/-- The `__main__` block (lines 165-184): a `ZeroDivisionError` escaping
`test_continuous_operation` is caught by `except Exception` and exits 1;
otherwise line 176 recomputes the success rate and the process exits 0 when
it is ≥ 80, else 1. -/
def mainExit (l : List FetchOutcome) : Nat :=
  let st := runStats l
  match summaryOutcome st with
  | .error _ => 1
  | .ok _ =>
    match pyDiv (st.success : ℚ) (st.total : ℚ) with
    | .error _ => 1
    | .ok rate => if 80 ≤ rate * 100 then 0 else 1

/-! ### Lemmas about the string primitives -/

theorem startsWithL_iff (p s : Str) : startsWithL p s = true ↔ ∃ t, s = p ++ t := by
  induction p generalizing s with
  | nil => simp [startsWithL]
  | cons a p ih =>
    cases s with
    | nil => simp [startsWithL]
    | cons b s =>
      simp only [startsWithL, Bool.and_eq_true, beq_iff_eq, ih, List.cons_append,
        List.cons.injEq]
      constructor
      · rintro ⟨rfl, t, rfl⟩
        exact ⟨t, rfl, rfl⟩
      · rintro ⟨t, rfl, rfl⟩
        exact ⟨rfl, t, rfl⟩

theorem endsWithL_iff (p s : Str) : endsWithL p s = true ↔ ∃ a, s = a ++ p := by
  unfold endsWithL
  rw [startsWithL_iff]
  constructor
  · rintro ⟨t, ht⟩
    refine ⟨t.reverse, ?_⟩
    have := congrArg List.reverse ht
    simpa using this
  · rintro ⟨a, rfl⟩
    exact ⟨a.reverse, by simp⟩

theorem containsSub_iff (p s : Str) : containsSub p s = true ↔ ∃ a b, s = a ++ p ++ b := by
  induction s with
  | nil =>
    simp only [containsSub, startsWithL_iff]
    constructor
    · rintro ⟨t, ht⟩
      rcases List.append_eq_nil.mp ht.symm with ⟨hp, htn⟩
      exact ⟨[], [], by simp [hp]⟩
    · rintro ⟨a, b, h⟩
      rcases List.append_eq_nil.mp h.symm with ⟨hab, hb⟩
      rcases List.append_eq_nil.mp hab with ⟨ha, hp⟩
      exact ⟨[], by simp [hp]⟩
  | cons c rest ih =>
    simp only [containsSub, Bool.or_eq_true, startsWithL_iff, ih]
    constructor
    · rintro (⟨t, ht⟩ | ⟨a, b, hab⟩)
      · exact ⟨[], t, by simpa using ht⟩
      · exact ⟨c :: a, b, by simp [hab]⟩
    · rintro ⟨a, b, hab⟩
      cases a with
      | nil => exact Or.inl ⟨b, by simpa using hab⟩
      | cons x a' =>
        right
        rcases List.cons.injEq .. ▸ hab with ⟨rfl, h⟩
        exact ⟨a', b, by simpa using h⟩

theorem dropWhile_head_not (p : Char → Bool) (l : Str) (c : Char)
    (h : (l.dropWhile p).head? = some c) : p c = false := by
  induction l with
  | nil => simp [List.dropWhile] at h
  | cons a t ih =>
    by_cases hp : p a
    · rw [List.dropWhile_cons_of_pos hp] at h
      exact ih h
    · rw [List.dropWhile_cons_of_neg hp] at h
      simp only [List.head?_cons, Option.some.injEq] at h
      subst h
      exact Bool.eq_false_iff.mpr hp

theorem dropWhile_eq_self (p : Char → Bool) (l : Str)
    (h : ∀ c, l.head? = some c → p c = false) : l.dropWhile p = l := by
  cases l with
  | nil => rfl
  | cons a t =>
    have := h a rfl
    rw [List.dropWhile_cons_of_neg (by simp [this])]

theorem getLast?_dropWhile (p : Char → Bool) (l : Str) :
    l.dropWhile p = [] ∨ (l.dropWhile p).getLast? = l.getLast? := by
  induction l with
  | nil => exact Or.inl rfl
  | cons a t ih =>
    by_cases hp : p a
    · rw [List.dropWhile_cons_of_pos hp]
      rcases ih with h0 | h1
      · exact Or.inl h0
      · cases t with
        | nil => exact Or.inl rfl
        | cons x t' =>
          right
          rw [h1, List.getLast?_cons_cons]
    · rw [List.dropWhile_cons_of_neg hp]
      exact Or.inr rfl

theorem pyStrip_head (s : Str) (c : Char) (h : (pyStrip s).head? = some c) :
    isPySpace c = false := by
  unfold pyStrip at h
  rw [List.head?_reverse] at h
  rcases getLast?_dropWhile isPySpace (s.dropWhile isPySpace).reverse with h0 | h1
  · rw [h0] at h
    simp at h
  · rw [h1, List.getLast?_reverse] at h
    exact dropWhile_head_not isPySpace s c h

theorem pyStrip_getLast (s : Str) (c : Char) (h : (pyStrip s).getLast? = some c) :
    isPySpace c = false := by
  unfold pyStrip at h
  rw [List.getLast?_reverse] at h
  exact dropWhile_head_not isPySpace _ c h

theorem pyStrip_eq_self (l : Str)
    (hh : ∀ c, l.head? = some c → isPySpace c = false)
    (hl : ∀ c, l.getLast? = some c → isPySpace c = false) : pyStrip l = l := by
  unfold pyStrip
  rw [dropWhile_eq_self _ l hh, dropWhile_eq_self, List.reverse_reverse]
  intro c hc
  rw [List.head?_reverse] at hc
  exact hl c hc

theorem pyStrip_idem (s : Str) : pyStrip (pyStrip s) = pyStrip s :=
  pyStrip_eq_self _ (pyStrip_head s) (pyStrip_getLast s)

theorem pyStrip_append_grant (t : Str) (ht : t ≠ [])
    (hh : ∀ c, t.head? = some c → isPySpace c = false) :
    pyStrip (t ++ " grant".data) = t ++ " grant".data := by
  apply pyStrip_eq_self
  · intro c hc
    cases t with
    | nil => exact absurd rfl ht
    | cons a t' =>
      simp only [List.cons_append, List.head?_cons, Option.some.injEq] at hc
      subst hc
      exact hh a rfl
  · intro c hc
    rw [List.getLast?_append] at hc
    have hg : ((" grant".data : Str)).getLast? = some 't' := by decide
    rw [hg] at hc
    simp only [Option.or_some, Option.some.injEq] at hc
    subst hc
    decide

theorem endsWith_grant_append (x : Str) :
    endsWithL "grant".data (toLowerL (x ++ " grant".data)) = true := by
  rw [endsWithL_iff]
  refine ⟨toLowerL x ++ [' '], ?_⟩
  unfold toLowerL
  rw [List.map_append]
  have h1 : (" grant".data).map pyLowerChar = " grant".data := by decide
  rw [h1, List.append_assoc]
  rfl

theorem hasGrantMarker_iff (t : Str) :
    hasGrantMarker t ↔
      (endsWithL "grant".data (toLowerL t) || containsSub " grant ".data (toLowerL t)) = true := by
  unfold hasGrantMarker
  rw [Bool.or_eq_true, endsWithL_iff, containsSub_iff]

/-! ### C6 and C7: the query normalizer -/

/-- C6, as stated, is false: the source checks for the substring `' grant '`
with a space on *both* sides, so a query that contains `grant` as a
standalone word at the start or end of the text (here `"grant money"`) is
not recognized and gets another `" grant"` appended, while the claim's
standalone-word reading leaves it unchanged. -/
theorem c6_counterexample :
    clean_grant_name "grant money".data ≠ cleanGrantNameSpec "grant money".data := by
  decide

/-- C6 amended: for every raw query, if the trimmed lowercased text ends with
`grant` or contains `" grant "` (the term with a space on both sides) as a
substring, `clean_grant_name` returns the trimmed text unchanged; otherwise
it returns the trimmed text with a single space and `grant` appended. -/
theorem c6_normalizer_matches_spec (g : Str) :
    (hasGrantMarker (pyStrip g) → clean_grant_name g = pyStrip g) ∧
    (¬ hasGrantMarker (pyStrip g) → clean_grant_name g = pyStrip g ++ " grant".data) := by
  constructor
  · intro h
    unfold clean_grant_name
    rw [if_pos ((hasGrantMarker_iff _).mp h)]
  · intro h
    unfold clean_grant_name
    rw [if_neg (fun hc => h ((hasGrantMarker_iff _).mpr hc))]

/-- Witness for the amended C6 at a concrete input with no `grant` marker. -/
theorem c6_normalizer_matches_spec_witness :
    clean_grant_name "Alpha Fund".data = pyStrip "Alpha Fund".data ++ " grant".data :=
  (c6_normalizer_matches_spec "Alpha Fund".data).2
    (fun h => absurd ((hasGrantMarker_iff _).mp h) (by decide))

/-- C7, as stated, is false: on input `""` (or any whitespace-only query),
`clean_grant_name` returns `" grant"`, and a second application strips the
leading space and returns `"grant"`. -/
theorem c7_counterexample :
    clean_grant_name (clean_grant_name "".data) ≠ clean_grant_name "".data := by
  decide

/-- C7 amended: the normalizer is idempotent on every query whose trimmed
text is non-empty. -/
theorem c7_idempotent_on_nonblank (g : Str) (h : pyStrip g ≠ []) :
    clean_grant_name (clean_grant_name g) = clean_grant_name g := by
  by_cases hb : (endsWithL "grant".data (toLowerL (pyStrip g))
      || containsSub " grant ".data (toLowerL (pyStrip g))) = true
  · have h1 : clean_grant_name g = pyStrip g := by
      unfold clean_grant_name
      rw [if_pos hb]
    rw [h1]
    unfold clean_grant_name
    rw [pyStrip_idem, if_pos hb]
  · have h1 : clean_grant_name g = pyStrip g ++ " grant".data := by
      unfold clean_grant_name
      rw [if_neg hb]
    rw [h1]
    unfold clean_grant_name
    rw [pyStrip_append_grant (pyStrip g) h (pyStrip_head g),
      if_pos (Bool.or_eq_true _ _ ▸ Or.inl (endsWith_grant_append (pyStrip g)))]

/-- Witness for the amended C7 at a concrete non-blank input. -/
theorem c7_idempotent_on_nonblank_witness :
    clean_grant_name (clean_grant_name "Ford Foundation".data) =
      clean_grant_name "Ford Foundation".data :=
  c7_idempotent_on_nonblank "Ford Foundation".data (by decide)

/-! ### C1 and C4: the grant batch runner -/

theorem gStep_best (backend : Str → GoogleResponse) (st : GRunState) (raw : Str) :
    (gStep backend st raw).best = st.best ++ gBestRow backend raw := by
  unfold gStep gBestRow
  by_cases h : skippedRecord raw = true
  · rw [if_pos h, if_pos h]
    simp
  · rw [if_neg h, if_neg h]
    cases hls : search_grant_google (backend (clean_grant_name (pyStrip raw))) with
    | nil => simp
    | cons l rest => simp

theorem foldl_gStep_best (backend : Str → GoogleResponse) (rows : List Str) (st : GRunState) :
    (rows.foldl (gStep backend) st).best = st.best ++ rows.flatMap (gBestRow backend) := by
  induction rows generalizing st with
  | nil => simp
  | cons r rows ih =>
    rw [List.foldl_cons, ih, List.flatMap_cons, gStep_best]
    simp [List.append_assoc]

/-- C1: for every non-skipped input record whose backend call yields an error
or no results, the best-result file receives exactly one row for that record,
with an empty link field, and every later record is still processed (its
best-result rows follow). Also: every error shape of the backend client
(`non-200`, request exception, unparseable 200 body) yields the empty link
list. -/
theorem c1_error_gives_empty_link_and_continues (backend : Str → GoogleResponse)
    (pre post : List Str) (raw : Str)
    (h1 : skippedRecord raw = false)
    (h2 : search_grant_google (backend (clean_grant_name (pyStrip raw))) = []) :
    (gRun backend (pre ++ raw :: post)).best =
      (gRun backend pre).best ++
        [(pyStrip raw, clean_grant_name (pyStrip raw), ([] : Str))] ++
        post.flatMap (gBestRow backend) ∧
    (∀ status, search_grant_google (.httpError status) = []) ∧
    search_grant_google .exn = [] ∧
    search_grant_google (.ok none) = [] := by
  refine ⟨?_, fun _ => rfl, rfl, rfl⟩
  unfold gRun
  rw [foldl_gStep_best, foldl_gStep_best]
  have hb : gBestRow backend raw =
      [(pyStrip raw, clean_grant_name (pyStrip raw), ([] : Str))] := by
    unfold gBestRow
    rw [if_neg (by simp [h1]), h2]
  simp [hb, List.append_assoc]

/-- Witness for C1: a two-record run where the first record's backend call
raises; the error row is written and the second record is still processed. -/
theorem c1_error_gives_empty_link_and_continues_witness :
    (gRun (fun _ => GoogleResponse.exn) (([] : List Str) ++ "Alpha".data :: ["Beta".data])).best =
      (gRun (fun _ => GoogleResponse.exn) []).best ++
        [(pyStrip "Alpha".data, clean_grant_name (pyStrip "Alpha".data), ([] : Str))] ++
        (["Beta".data] : List Str).flatMap (gBestRow (fun _ => GoogleResponse.exn)) :=
  (c1_error_gives_empty_link_and_continues (fun _ => GoogleResponse.exn)
    [] ["Beta".data] "Alpha".data (by decide) rfl).1

/-- C4, as stated, is false in its exit-code half: when the input file is
missing, `main` prints an error and plainly `return`s, so the script finishes
normally and the process exit status is 0, not 1 (no output row is produced,
which is the half that does hold). -/
theorem c4_counterexample :
    (mainGrant none (fun _ => GoogleResponse.exn)).2 = 0 ∧
    ¬ (mainGrant none (fun _ => GoogleResponse.exn)).2 = 1 ∧
    (mainGrant none (fun _ => GoogleResponse.exn)).1.best = [] ∧
    (mainGrant none (fun _ => GoogleResponse.exn)).1.full = [] :=
  ⟨rfl, by decide, rfl, rfl⟩

/-- C4 amended: if the input file does not exist the run aborts before
producing any output row and the process exits with code 0 (not 1); when the
input exists the run also exits 0 and writes one best row per non-skipped
record. -/
theorem c4_missing_input_aborts_exit_zero (backend : Str → GoogleResponse) (rows : List Str) :
    (mainGrant none backend).1.best = [] ∧
    (mainGrant none backend).1.full = [] ∧
    (mainGrant none backend).2 = 0 ∧
    (mainGrant (some rows) backend).2 = 0 ∧
    (mainGrant (some rows) backend).1.best = rows.flatMap (gBestRow backend) := by
  refine ⟨rfl, rfl, rfl, rfl, ?_⟩
  unfold mainGrant gRun
  rw [foldl_gStep_best]
  simp

/-! ### C2: malformed responses are recovered at the item boundary -/

/-- C2: `SearXNGClient.search` never lets an exception escape — every path
returns a dictionary (for an HTTP 200 reply whose body is not parseable JSON
it returns the `{'error': ...}` dictionary, since `JSONDecodeError` is a
`RequestException` as of requests 2.27) — and in the continuous-operation
loop a malformed 200 reply is counted as a failure while the remaining
iterations still run. -/
theorem c2_malformed_response_recovered (a : HttpAttempt) (format txt : Str)
    (st : Stats) (e : ℚ) (pre post : List FetchOutcome) :
    (∃ v, SearXNGClient.search a format = Except.ok v) ∧
    SearXNGClient.search (HttpAttempt.conn 200 none txt) "json".data =
      Except.ok (ClientValue.errorDict PyExn.jsonDecodeExn.message) ∧
    (stepSearch st (.resp e 200 none)).failed = st.failed + 1 ∧
    (stepSearch st (.resp e 200 none)).success = st.success ∧
    runStats (pre ++ FetchOutcome.resp e 200 none :: post) =
      post.foldl stepSearch (stepSearch (runStats pre) (FetchOutcome.resp e 200 none)) := by
  refine ⟨?_, rfl, by simp [stepSearch], by simp [stepSearch], ?_⟩
  · unfold SearXNGClient.search
    cases hsb : SearXNGClient.searchBody a format with
    | ok v => exact ⟨v, rfl⟩
    | error ex =>
      refine ⟨ClientValue.errorDict ex.message, ?_⟩
      cases ex <;> rfl
  · unfold runStats
    rw [List.foldl_append, List.foldl_cons]

/-! ### Lemmas about the continuous-operation loop -/

theorem stepSearch_total (st : Stats) (f : FetchOutcome) :
    (stepSearch st f).total = st.total + 1 := by
  cases f with
  | resp e status body =>
    simp only [stepSearch]
    by_cases h : status = 200
    · rw [if_pos h]
      cases body <;> rfl
    · rw [if_neg h]
  | timeout => rfl
  | exn => rfl

theorem stepSearch_success (st : Stats) (f : FetchOutcome) :
    (stepSearch st f).success = if isSuccess f then st.success + 1 else st.success := by
  cases f with
  | resp e status body =>
    by_cases h : status = 200
    · subst h
      cases body <;> simp [stepSearch, isSuccess]
    · cases body <;> simp [stepSearch, isSuccess, h]
  | timeout => rfl
  | exn => rfl

theorem stepSearch_failed (st : Stats) (f : FetchOutcome) :
    (stepSearch st f).failed = if isSuccess f then st.failed else st.failed + 1 := by
  cases f with
  | resp e status body =>
    by_cases h : status = 200
    · subst h
      cases body <;> simp [stepSearch, isSuccess]
    · cases body <;> simp [stepSearch, isSuccess, h]
  | timeout => rfl
  | exn => rfl

theorem stepSearch_times (st : Stats) (f : FetchOutcome) :
    (stepSearch st f).responseTimes =
      st.responseTimes ++
        (match f with | .resp e _ _ => [e] | .timeout => [] | .exn => []) := by
  cases f with
  | resp e status body =>
    simp only [stepSearch]
    by_cases h : status = 200
    · rw [if_pos h]
      cases body <;> rfl
    · rw [if_neg h]
  | timeout => simp [stepSearch]
  | exn => simp [stepSearch]

theorem foldl_step_total (l : List FetchOutcome) (st : Stats) :
    (l.foldl stepSearch st).total = st.total + l.length := by
  induction l generalizing st with
  | nil => rfl
  | cons f fs ih =>
    rw [List.foldl_cons, ih, stepSearch_total, List.length_cons]
    omega

theorem foldl_step_success (l : List FetchOutcome) (st : Stats) :
    (l.foldl stepSearch st).success = st.success + l.countP isSuccess := by
  induction l generalizing st with
  | nil => rfl
  | cons f fs ih =>
    rw [List.foldl_cons, ih, stepSearch_success, List.countP_cons]
    by_cases h : isSuccess f = true
    · rw [if_pos h, if_pos h]
      omega
    · rw [if_neg h, if_neg h]
      omega

theorem runStats_total (l : List FetchOutcome) : (runStats l).total = l.length := by
  unfold runStats
  rw [foldl_step_total]
  simp [initStats]

theorem runStats_success (l : List FetchOutcome) :
    (runStats l).success = l.countP isSuccess := by
  unfold runStats
  rw [foldl_step_success]
  simp [initStats]

theorem foldl_step_invariant (l : List FetchOutcome) (st : Stats)
    (h : st.total = st.success + st.failed) :
    (l.foldl stepSearch st).total =
      (l.foldl stepSearch st).success + (l.foldl stepSearch st).failed := by
  induction l generalizing st with
  | nil => exact h
  | cons f fs ih =>
    rw [List.foldl_cons]
    apply ih
    rw [stepSearch_total, stepSearch_success, stepSearch_failed]
    by_cases hf : isSuccess f = true
    · rw [if_pos hf, if_pos hf]
      omega
    · rw [if_neg hf, if_neg hf]
      omega

theorem summaryOutcome_ok (st : Stats) (h : (st.total : ℚ) ≠ 0) :
    summaryOutcome st = Except.ok (summaryHappy st) := by
  have hmax : ((max st.success 1 : ℕ) : ℚ) ≠ 0 := by
    have h1 : 0 < max st.success 1 := by omega
    exact_mod_cast Nat.pos_iff_ne_zero.mp h1
  unfold summaryOutcome summaryHappy pyDiv
  by_cases hrt : st.responseTimes.isEmpty = true
  · simp only [h, hmax, hrt, if_false, if_true, ite_true, ite_false]
  · have hlen : ((st.responseTimes.length : ℕ) : ℚ) ≠ 0 := by
      have hne : st.responseTimes ≠ [] := by
        intro he
        rw [he] at hrt
        exact hrt rfl
      have h2 : 0 < st.responseTimes.length := List.length_pos.mpr hne
      exact_mod_cast Nat.pos_iff_ne_zero.mp h2
    simp only [h, hmax, hrt, hlen, if_false, if_true, ite_true, ite_false,
      Bool.false_eq_true]

/-! ### C3: success rate and exit status -/

/-- C3: over any non-empty run, `successful_searches` is exactly the number
of iterations with an HTTP 200 reply and a parseable body, `total_searches`
is the number of scheduled searches, the summary's reported success rate is
`successes/total*100`, and the process exit status is 1 exactly when that
rate is below 80 and 0 otherwise. -/
theorem c3_success_rate_and_exit (l : List FetchOutcome) (h : l ≠ []) :
    (runStats l).success = l.countP isSuccess ∧
    (runStats l).total = l.length ∧
    (∃ s, summaryOutcome (runStats l) = Except.ok s ∧
      s.successPct = ((l.countP isSuccess : ℚ) / (l.length : ℚ)) * 100) ∧
    mainExit l =
      (if ((l.countP isSuccess : ℚ) / (l.length : ℚ)) * 100 < 80 then 1 else 0) := by
  have hsucc := runStats_success l
  have htot := runStats_total l
  have htotQ : ((runStats l).total : ℚ) ≠ 0 := by
    rw [htot]
    exact Nat.cast_ne_zero.mpr (fun hl => h (List.length_eq_zero.mp hl))
  have hs := summaryOutcome_ok _ htotQ
  refine ⟨hsucc, htot, ⟨summaryHappy (runStats l), hs, ?_⟩, ?_⟩
  · simp only [summaryHappy]
    rw [hsucc, htot]
  · simp only [mainExit, hs, pyDiv, htotQ, if_false, ite_false]
    rw [hsucc, htot]
    by_cases h80 : (80 : ℚ) ≤ ((l.countP isSuccess : ℚ) / (l.length : ℚ)) * 100
    · rw [if_pos h80, if_neg (not_lt.mpr h80)]
    · rw [if_neg h80, if_pos (not_le.mp h80)]

/-- Witness for C3: two searches, one 200-with-body and one 500; the rate is
50 and the exit status 1. -/
theorem c3_success_rate_and_exit_witness :
    (runStats [FetchOutcome.resp 1 200 (some ⟨none, none⟩), FetchOutcome.resp 1 500 none]).success =
      ([FetchOutcome.resp 1 200 (some ⟨none, none⟩), FetchOutcome.resp 1 500 none]).countP isSuccess ∧
    (runStats [FetchOutcome.resp 1 200 (some ⟨none, none⟩), FetchOutcome.resp 1 500 none]).total =
      ([FetchOutcome.resp 1 200 (some ⟨none, none⟩), FetchOutcome.resp 1 500 none]).length ∧
    (∃ s, summaryOutcome (runStats [FetchOutcome.resp 1 200 (some ⟨none, none⟩), FetchOutcome.resp 1 500 none]) = Except.ok s ∧
      s.successPct = ((([FetchOutcome.resp 1 200 (some ⟨none, none⟩), FetchOutcome.resp 1 500 none]).countP isSuccess : ℚ) /
        (([FetchOutcome.resp 1 200 (some ⟨none, none⟩), FetchOutcome.resp 1 500 none]).length : ℚ)) * 100) ∧
    mainExit [FetchOutcome.resp 1 200 (some ⟨none, none⟩), FetchOutcome.resp 1 500 none] =
      (if ((([FetchOutcome.resp 1 200 (some ⟨none, none⟩), FetchOutcome.resp 1 500 none]).countP isSuccess : ℚ) /
        (([FetchOutcome.resp 1 200 (some ⟨none, none⟩), FetchOutcome.resp 1 500 none]).length : ℚ)) * 100 < 80 then 1 else 0) :=
  c3_success_rate_and_exit
    [FetchOutcome.resp 1 200 (some ⟨none, none⟩), FetchOutcome.resp 1 500 none]
    (List.cons_ne_nil _ _)

/-! ### C5: which items record latency samples -/

/-- C5, as stated, is false: an HTTP 200 reply whose body fails to parse
increments the failure counter *and* records a latency sample (the sample is
appended before the body parse), and a non-200 reply likewise records a
latency sample though it counts as a failure. -/
theorem c5_counterexample :
    (runStats [FetchOutcome.resp 1 200 none]).failed = 1 ∧
    (runStats [FetchOutcome.resp 1 200 none]).responseTimes = [1] ∧
    (runStats [FetchOutcome.resp 2 500 (some ⟨none, none⟩)]).failed = 1 ∧
    (runStats [FetchOutcome.resp 2 500 (some ⟨none, none⟩)]).responseTimes = [2] := by
  refine ⟨rfl, rfl, ?_, ?_⟩ <;> rfl

/-- C5 amended: a timeout or an exception raised by the GET call itself
increments the failure counter and records no latency sample; every
completed HTTP reply appends exactly one latency sample regardless of status
or body parseability; the success counter increments exactly on
200-with-parseable-body items, the failure counter on all others. -/
theorem c5_latency_only_on_completed_gets (st : Stats) (f : FetchOutcome) :
    (stepSearch st f).responseTimes =
      st.responseTimes ++
        (match f with | .resp e _ _ => [e] | .timeout => [] | .exn => []) ∧
    (stepSearch st f).failed = (if isSuccess f then st.failed else st.failed + 1) ∧
    (stepSearch st f).success = (if isSuccess f then st.success + 1 else st.success) :=
  ⟨stepSearch_times st f, stepSearch_failed st f, stepSearch_success st f⟩

/-! ### C9: counter invariant -/

/-- C9: after every completed iteration `total_searches` equals
`successful_searches + failed_searches`; each item increments the total
counter exactly once and exactly one of the success or failure counters. -/
theorem c9_counters_split (l : List FetchOutcome) (st : Stats) (f : FetchOutcome) :
    ((runStats l).total = (runStats l).success + (runStats l).failed) ∧
    (stepSearch st f).total = st.total + 1 ∧
    (((stepSearch st f).success = st.success + 1 ∧ (stepSearch st f).failed = st.failed) ∨
      ((stepSearch st f).success = st.success ∧ (stepSearch st f).failed = st.failed + 1)) := by
  refine ⟨foldl_step_invariant l initStats rfl, stepSearch_total st f, ?_⟩
  by_cases hf : isSuccess f = true
  · exact Or.inl ⟨by rw [stepSearch_success, if_pos hf], by rw [stepSearch_failed, if_pos hf]⟩
  · exact Or.inr ⟨by rw [stepSearch_success, if_neg hf], by rw [stepSearch_failed, if_neg hf]⟩

/-! ### C10: the summary needs a non-empty run -/

/-- C10: `total_searches` equals the number of scheduled searches, and the
final summary completes exactly when at least one search was scheduled: with
zero searches the success-rate division divides by a zero `total_searches`
and raises (only the latency and average-results divisions are guarded), so
the summary succeeds if and only if the run was non-empty. -/
theorem c10_summary_needs_nonempty_run (l : List FetchOutcome) :
    (runStats l).total = l.length ∧
    (summaryOutcome (runStats l)).isOk = !l.isEmpty := by
  refine ⟨runStats_total l, ?_⟩
  cases l with
  | nil => rfl
  | cons f fs =>
    have htotQ : ((runStats (f :: fs)).total : ℚ) ≠ 0 := by
      rw [runStats_total]
      exact Nat.cast_ne_zero.mpr (by simp)
    rw [summaryOutcome_ok _ htotQ]
    rfl

/-! ### C8: the top-10 engines report -/

theorem foldl_bump_flatMap (rs : List SearxResult) (m : List (Str × Nat)) :
    rs.foldl (fun m r => (r.engines.getD []).foldl bump m) m =
      (rs.flatMap (fun r => r.engines.getD [])).foldl bump m := by
  induction rs generalizing m with
  | nil => rfl
  | cons r rs ih =>
    rw [List.foldl_cons, List.flatMap_cons, List.foldl_append, ih]

theorem stepSearch_engines (st : Stats) (f : FetchOutcome) :
    (stepSearch st f).enginesUsed = (itemEngines f).foldl bump st.enginesUsed := by
  cases f with
  | resp e status body =>
    by_cases h : status = 200
    · subst h
      cases body with
      | none => simp [stepSearch, itemEngines]
      | some d => simp [stepSearch, itemEngines, foldl_bump_flatMap]
    · cases body <;> simp [stepSearch, itemEngines, h]
  | timeout => rfl
  | exn => rfl

theorem bump_keys (m : List (Str × Nat)) (k : Str) :
    (bump m k).map (fun p => p.1) =
      if k ∈ m.map (fun p => p.1) then m.map (fun p => p.1)
      else m.map (fun p => p.1) ++ [k] := by
  induction m with
  | nil => simp [bump]
  | cons x rest ih =>
    by_cases h : x.1 = k
    · simp [bump, h]
    · simp only [bump, if_neg h, List.map_cons, ih, List.mem_cons]
      by_cases hk : k ∈ rest.map (fun p => p.1)
      · rw [if_pos hk, if_pos (Or.inr hk)]
      · rw [if_neg hk, if_neg (by rintro (h1 | h2); exact h (h1.symm); exact hk h2)]
        simp

theorem foldl_bump_keys_nodup (s : List Str) (m : List (Str × Nat))
    (h : (m.map (fun p => p.1)).Nodup) :
    ((s.foldl bump m).map (fun p => p.1)).Nodup := by
  induction s generalizing m with
  | nil => exact h
  | cons k s ih =>
    rw [List.foldl_cons]
    apply ih
    rw [bump_keys]
    by_cases hk : k ∈ m.map (fun p => p.1)
    · rw [if_pos hk]
      exact h
    · rw [if_neg hk]
      refine List.nodup_append.mpr ⟨h, List.nodup_singleton k, ?_⟩
      intro a ha hb
      rw [List.mem_singleton] at hb
      subst hb
      exact hk ha

theorem runStats_engines_nodup (l : List FetchOutcome) :
    (((runStats l).enginesUsed).map (fun p => p.1)).Nodup := by
  suffices hgen : ∀ (l : List FetchOutcome) (st : Stats),
      ((st.enginesUsed).map (fun p => p.1)).Nodup →
      (((l.foldl stepSearch st).enginesUsed).map (fun p => p.1)).Nodup by
    exact hgen l initStats (by simp [initStats])
  intro l
  induction l with
  | nil => exact fun st h => h
  | cons f fs ih =>
    intro st h
    rw [List.foldl_cons]
    apply ih
    rw [stepSearch_engines]
    exact foldl_bump_keys_nodup _ _ h

theorem keyIdx_get (m : List (Str × Nat)) (h : (m.map (fun p => p.1)).Nodup)
    (i : Fin m.length) : keyIdx m (m.get i).1 = i := by
  induction m with
  | nil => exact absurd i.isLt (by simp)
  | cons x t ih =>
    rcases i with ⟨i, hi⟩
    cases i with
    | zero => simp [keyIdx, List.findIdx_cons]
    | succ j =>
      have hj : j < t.length := by
        simpa using hi
      rw [List.map_cons, List.nodup_cons] at h
      have hmem : ((t.get ⟨j, hj⟩).1) ∈ t.map (fun p => p.1) :=
        List.mem_map_of_mem _ (t.get_mem _ _)
      have hx : x.1 ≠ (t.get ⟨j, hj⟩).1 := fun hxe => h.1 (hxe ▸ hmem)
      have hbeq : (x.1 == (t.get ⟨j, hj⟩).1) = false := beq_eq_false_iff_ne.mpr hx
      have hidx := ih h.2 ⟨j, hj⟩
      simp only [keyIdx, List.findIdx_cons] at hidx ⊢
      simp only [List.get_eq_getElem] at hbeq hidx ⊢
      simp [hbeq, hidx]

theorem pairwise_keyIdx_self (m : List (Str × Nat))
    (h : (m.map (fun p => p.1)).Nodup) :
    m.Pairwise (fun a b => keyIdx m a.1 < keyIdx m b.1) := by
  rw [List.pairwise_iff_get]
  intro i j hij
  rw [keyIdx_get m h i, keyIdx_get m h j]
  exact hij

theorem insDesc_mem (x : Str × Nat) (l : List (Str × Nat)) (y : Str × Nat) :
    y ∈ insDesc x l ↔ y = x ∨ y ∈ l := by
  induction l with
  | nil => simp [insDesc]
  | cons z zs ih =>
    by_cases h : z.2 < x.2
    · simp [insDesc, h]
    · simp only [insDesc, if_neg h, List.mem_cons, ih]
      tauto

theorem insDesc_pairwise (f : Str × Nat → Nat) (x : Str × Nat) (l : List (Str × Nat))
    (h1 : l.Pairwise (rankRel f)) (h2 : ∀ y ∈ l, y.2 = x.2 → f y < f x) :
    (insDesc x l).Pairwise (rankRel f) := by
  induction l with
  | nil => simp [insDesc, List.pairwise_singleton]
  | cons z zs ih =>
    rcases List.pairwise_cons.mp h1 with ⟨hz, hzs⟩
    by_cases h : z.2 < x.2
    · rw [insDesc, if_pos h]
      refine List.pairwise_cons.mpr ⟨?_, h1⟩
      intro y hy
      rcases List.mem_cons.mp hy with rfl | hy'
      · exact Or.inl h
      · rcases hz y hy' with hlt | ⟨heq, _⟩
        · exact Or.inl (by omega)
        · exact Or.inl (by omega)
    · rw [insDesc, if_neg h]
      refine List.pairwise_cons.mpr ⟨?_, ?_⟩
      · intro y hy
        rcases (insDesc_mem x zs y).mp hy with rfl | hy'
        · rcases Nat.lt_or_ge y.2 z.2 with hlt | hge
          · exact Or.inl hlt
          · have heq : z.2 = y.2 := by omega
            exact Or.inr ⟨heq, h2 z (List.mem_cons_self z zs) heq⟩
        · exact hz y hy'
      · exact ih hzs (fun y hy heq => h2 y (List.mem_cons_of_mem z hy) heq)

theorem sortFold_pairwise (f : Str × Nat → Nat) (xs : List (Str × Nat)) :
    ∀ acc : List (Str × Nat), acc.Pairwise (rankRel f) →
      (∀ y ∈ acc, ∀ x ∈ xs, f y < f x) →
      xs.Pairwise (fun a b => f a < f b) →
      (xs.foldl (fun a x => insDesc x a) acc).Pairwise (rankRel f) := by
  induction xs with
  | nil => exact fun acc h1 _ _ => h1
  | cons x xs ih =>
    intro acc h1 h2 h3
    rcases List.pairwise_cons.mp h3 with ⟨hx, hxs⟩
    rw [List.foldl_cons]
    apply ih
    · exact insDesc_pairwise f x acc h1
        (fun y hy _ => h2 y hy x (List.mem_cons_self x xs))
    · intro y hy z hz
      rcases (insDesc_mem x acc y).mp hy with rfl | hy'
      · exact hx z hz
      · exact h2 y hy' z (List.mem_cons_of_mem x hz)
    · exact hxs

theorem sortFold_subset (xs : List (Str × Nat)) :
    ∀ (acc : List (Str × Nat)) (y : Str × Nat),
      y ∈ xs.foldl (fun a x => insDesc x a) acc → y ∈ acc ∨ y ∈ xs := by
  induction xs with
  | nil => exact fun acc y hy => Or.inl hy
  | cons x xs ih =>
    intro acc y hy
    rw [List.foldl_cons] at hy
    rcases ih (insDesc x acc) y hy with hacc | hxs
    · rcases (insDesc_mem x acc y).mp hacc with rfl | hacc'
      · exact Or.inr (List.mem_cons_self y xs)
      · exact Or.inl hacc'
    · exact Or.inr (List.mem_cons_of_mem x hxs)

/-- C8: the top-10 engines report is the first ten entries of the hit-count
mapping sorted by count descending, and between equal counts the engine that
comes first in the iteration order of the underlying counter mapping comes
first in the report; every reported entry is an entry of the mapping. -/
theorem c8_top_engines_ordering (l : List FetchOutcome) :
    (((pySortDesc ((runStats l).enginesUsed)).take 10).Pairwise
      (fun a b => b.2 < a.2 ∨ (a.2 = b.2 ∧
        keyIdx ((runStats l).enginesUsed) a.1 < keyIdx ((runStats l).enginesUsed) b.1))) ∧
    (∀ x ∈ (pySortDesc ((runStats l).enginesUsed)).take 10,
      x ∈ (runStats l).enginesUsed) := by
  have hnd := runStats_engines_nodup l
  constructor
  · have hp : (pySortDesc ((runStats l).enginesUsed)).Pairwise
        (rankRel (fun p => keyIdx ((runStats l).enginesUsed) p.1)) :=
      sortFold_pairwise _ _ [] List.Pairwise.nil (by simp)
        (pairwise_keyIdx_self _ hnd)
    exact List.Pairwise.sublist (List.take_sublist 10 _) hp
  · intro x hx
    have hx' : x ∈ pySortDesc ((runStats l).enginesUsed) :=
      List.take_subset 10 _ hx
    rcases sortFold_subset _ [] x hx' with h0 | hm
    · cases h0
    · exact hm

end SearxVerify
